import Mathlib

/-!
Verification of the duckdb-sleep extension (src/src/sleep_extension.cpp).

Shallow embedding conventions:
* C++ `double` values are modelled by `FloatVal`: NaN, the two infinities,
  and finite values represented exactly as rationals.  IEEE rounding of
  finite arithmetic is idealised as exact rational arithmetic; `-0.0`
  coincides with `0` (both compare `<= 0`, which is the only way the code
  inspects the sign).
* Machine `int64_t` values are modelled as `Int`, with twos-complement
  wraparound (`i64wrap`) applied where the C++ code performs arithmetic
  that can overflow.
* Real time is modelled as a rational number of seconds; a `sleep_for` of
  `d` seconds advances the clock by exactly `d`.  The query-interruption
  flag, which the host may flip at any moment, is modelled as a function
  from time to `Bool`, polled exactly where `CheckInterruption` runs.
* The waiter loop is written with an explicit fuel argument so that it is
  a structural recursion; `sleepFuel` supplies enough fuel for the loop to
  run to completion, and sufficiency lemmas are proved below.
-/

deriving instance DecidableEq for Except

namespace SleepExt

/-- Model of a C++ `double`: NaN, the infinities, or an exact finite value. -/
inductive FloatVal where
  | nan
  | posInf
  | negInf
  | finite (q : ℚ)
  deriving DecidableEq, Repr

/-- Mirrors `std::isnan`. -/
def FloatVal.isNaN : FloatVal → Bool
  | .nan => true
  | _ => false

/-- Mirrors `std::isinf`, which is true for BOTH infinities. -/
def FloatVal.isInf : FloatVal → Bool
  | .posInf => true
  | .negInf => true
  | _ => false

/-- Numeric value of a finite `FloatVal` (only used after the NaN and
infinity guards of `PerformSleep` have run, where the value is finite). -/
def FloatVal.toRat : FloatVal → ℚ
  | .finite q => q
  | _ => 0

/-- Constant `MAX_SLEEP_SECONDS = 3600.0` from sleep_extension.cpp. -/
def MAX_SLEEP_SECONDS : ℚ := 3600

/-- Constant `CHECK_INTERVAL_MS = 100` from sleep_extension.cpp. -/
def CHECK_INTERVAL_MS : ℤ := 100

/-- The polling quantum in seconds: `std::chrono::milliseconds(CHECK_INTERVAL_MS)`. -/
def CHECK_INTERVAL : ℚ := (CHECK_INTERVAL_MS : ℚ) / 1000

/-- Errors a sleep invocation can raise: `InvalidInputException` for NaN, and
`InterruptException` (recording the model time of the failing poll). -/
inductive SleepError where
  | invalidInput
  | interrupted (t : ℚ)
  deriving DecidableEq, Repr

/-- Normalisation stage of `PerformSleep` (sleep_extension.cpp lines 44-63):
NaN fails with `InvalidInputException`; any infinity is replaced by
`MAX_SLEEP_SECONDS`; a value `<= 0` means return without sleeping
(duration 0); a value above the ceiling is clamped to it.  Returns the
effective wait duration handed to the polling loop. -/
def normalizeSleepSeconds (s : FloatVal) : Except SleepError ℚ :=
  if s.isNaN then
    .error .invalidInput
  else
    let s1 := if s.isInf then FloatVal.finite MAX_SLEEP_SECONDS else s
    let q := s1.toRat
    if q ≤ 0 then
      .ok 0
    else if MAX_SLEEP_SECONDS < q then
      .ok MAX_SLEEP_SECONDS
    else
      .ok q

/-- Effective wait duration of `PerformSleep` on non-failing inputs
(0 when the input fails the NaN check, a case callers exclude). -/
def effectiveSeconds (s : FloatVal) : ℚ :=
  match normalizeSleepSeconds s with
  | .ok d => d
  | .error _ => 0

/-- Polling loop of `PerformSleep` (lines 65-81), fuel-indexed: while the
current time is before the deadline, poll the interruption flag (throwing
`InterruptException` if set), then sleep `min(remaining, CHECK_INTERVAL)`.
On success it returns the completion time.  The fuel only limits recursion
depth; `sleepFuel` below always provides enough. -/
def sleepLoopF (inter : ℚ → Bool) (endT : ℚ) : ℕ → ℚ → Except SleepError ℚ
  | 0, now => .ok now
  | fuel + 1, now =>
    if now < endT then
      if inter now then
        .error (.interrupted now)
      else
        let remaining := endT - now
        let step := min remaining CHECK_INTERVAL
        sleepLoopF inter endT fuel (now + step)
    else
      .ok now

/-- Number of loop iterations needed to go from `now` to `endT` in steps of
at most `CHECK_INTERVAL`, plus one unit of slack. -/
def sleepFuel (endT now : ℚ) : ℕ :=
  (⌈(endT - now) / CHECK_INTERVAL⌉).toNat + 1

/-- The polling loop run with sufficient fuel. -/
def sleepLoop (inter : ℚ → Bool) (endT now : ℚ) : Except SleepError ℚ :=
  sleepLoopF inter endT (sleepFuel endT now) now

/-- Full `PerformSleep` (lines 44-82): normalise the requested seconds, then
run the polling loop from `now` with deadline `now + duration`.  A
normalised duration of 0 (the `seconds <= 0` early return) makes the loop
exit immediately without polling.  Returns the completion time. -/
def performSleep (inter : ℚ → Bool) (now : ℚ) (s : FloatVal) : Except SleepError ℚ :=
  match normalizeSleepSeconds s with
  | .error e => .error e
  | .ok d => sleepLoop inter (now + d) now

/-- DuckDB `interval_t`: months and days are `int32_t`, micros is `int64_t`.
The fields are read-only inputs and are only ever cast to `double`, so they
are modelled as mathematical integers. -/
structure interval_t where
  months : ℤ
  days : ℤ
  micros : ℤ
  deriving DecidableEq, Repr

/-- Interval-to-seconds conversion of `SleepForFunction` (lines 133-135):
`days*86400.0 + months*2592000.0 + micros/1000000.0`, doubles idealised as
exact rationals. -/
def intervalToSeconds (iv : interval_t) : ℚ :=
  (iv.days : ℚ) * 86400 + (iv.months : ℚ) * 2592000 + (iv.micros : ℚ) / 1000000

/-- Per-row body of `SleepForFunction` (lines 128-137). -/
def sleepForRow (inter : ℚ → Bool) (now : ℚ) (iv : interval_t) : Except SleepError ℚ :=
  performSleep inter now (.finite (intervalToSeconds iv))

/-- Value of `std::numeric_limits<int64_t>::min()`, the DuckDB negative-infinity
timestamp sentinel. -/
def INT64_MIN : ℤ := -(2 ^ 63)

/-- Value of `std::numeric_limits<int64_t>::max()`, the DuckDB positive-infinity
timestamp sentinel. -/
def INT64_MAX : ℤ := 2 ^ 63 - 1

/-- Twos-complement wraparound of an `int64_t` computation.  The C++
subtraction `target_timestamp.value - current_timestamp.value` is performed
on `int64_t` operands; when the mathematical difference leaves the int64
range, this models the conventional wraparound behaviour. -/
def i64wrap (x : ℤ) : ℤ :=
  (x + 2 ^ 63) % 2 ^ 64 - 2 ^ 63

/-- Seconds value handed to `PerformSleep` by one row of `SleepUntilFunction`
(lines 161-181), given the sampled current timestamp: `none` means the row
`continue`s without calling `PerformSleep` (the negative-infinity sentinel);
the positive-infinity sentinel requests `MAX_SLEEP_SECONDS` directly; any
other target is subtracted (int64 arithmetic) and divided by 1e6. -/
def sleepUntilSeconds (nowTs target : ℤ) : Option FloatVal :=
  if target = INT64_MIN then
    none
  else if target = INT64_MAX then
    some (.finite MAX_SLEEP_SECONDS)
  else
    some (.finite ((i64wrap (target - nowTs) : ℚ) / 1000000))

/-- Effective wait duration of one non-null `sleep_until` row. -/
def sleepUntilEffective (nowTs target : ℤ) : ℚ :=
  match sleepUntilSeconds nowTs target with
  | none => 0
  | some s => effectiveSeconds s

/-- Per-row body of `SleepUntilFunction` (lines 161-181).  `tsOf` models
`Timestamp::GetCurrentTimestamp()`, sampling the wall-clock timestamp at the
given model time. -/
def sleepUntilRow (inter : ℚ → Bool) (tsOf : ℚ → ℤ) (now : ℚ) (target : ℤ) :
    Except SleepError ℚ :=
  match sleepUntilSeconds (tsOf now) target with
  | none => .ok now
  | some s => performSleep inter now s

/-- Row loop shared by the three scalar functions (lines 99-105, 123-138,
156-182): iterate the batch in order, skip rows whose input is NULL,
otherwise run the row body; an exception aborts the remaining rows.
Returns the list of wait durations of the completed non-null rows, the
final model time, and the error that aborted the batch, if any. -/
def runRows (step : ℚ → α → Except SleepError ℚ) :
    ℚ → List (Option α) → List ℚ × ℚ × Option SleepError
  | t, [] => ([], t, none)
  | t, none :: rest => runRows step t rest
  | t, some a :: rest =>
    match step t a with
    | .error e => ([], t, some e)
    | .ok t1 =>
      let r := runRows step t1 rest
      ((t1 - t) :: r.1, r.2)

/-- Batch loop of `SleepFunction` (lines 99-105). -/
def sleepBatch (inter : ℚ → Bool) (t : ℚ) (rows : List (Option FloatVal)) :
    List ℚ × ℚ × Option SleepError :=
  runRows (performSleep inter) t rows

/-- Batch loop of `SleepForFunction` (lines 123-138). -/
def sleepForBatch (inter : ℚ → Bool) (t : ℚ) (rows : List (Option interval_t)) :
    List ℚ × ℚ × Option SleepError :=
  runRows (sleepForRow inter) t rows

/-- Batch loop of `SleepUntilFunction` (lines 156-182). -/
def sleepUntilBatch (inter : ℚ → Bool) (tsOf : ℚ → ℤ) (t : ℚ)
    (rows : List (Option ℤ)) : List ℚ × ℚ × Option SleepError :=
  runRows (sleepUntilRow inter tsOf) t rows

/-- Result column produced by all three scalar functions on success
(lines 108-109, 141-142, 185-186): a constant NULL vector, i.e. a null
output for every one of the `n` rows. -/
def batchResult (n : ℕ) : List (Option Unit) :=
  List.replicate n none

/-- Written from the words of the spec for claim C2 (not from the code, for
comparison against `normalizeSleepSeconds`): the effective wait duration is
`min(max(s, 0), MAX_SLEEP_SECONDS)`, with positive infinity substituted by
`MAX_SLEEP_SECONDS`.  NaN and negative infinity are excluded by the claim
and mapped to an arbitrary value. -/
def specClampSeconds : FloatVal → ℚ
  | .posInf => MAX_SLEEP_SECONDS
  | .finite q => min (max q 0) MAX_SLEEP_SECONDS
  | _ => 0

/-- Written from the words of the spec for claim C5 (not from the code, for
comparison against `intervalToSeconds`): seconds =
`days*86400 + months*2592000 + micros/1000000`. -/
def specIntervalSeconds (iv : interval_t) : ℚ :=
  (iv.days : ℚ) * 86400 + (iv.months : ℚ) * 2592000 + (iv.micros : ℚ) / 1000000

/-! Helper lemmas about the polling loop, the normaliser and the row loop. -/

theorem CHECK_INTERVAL_pos : 0 < CHECK_INTERVAL := by
  rw [CHECK_INTERVAL, CHECK_INTERVAL_MS]
  norm_num

theorem ceil_steps_pos {endT now : ℚ} (h : now < endT) :
    1 ≤ (⌈(endT - now) / CHECK_INTERVAL⌉).toNat := by
  have hq : (0 : ℚ) < (endT - now) / CHECK_INTERVAL :=
    div_pos (by linarith) CHECK_INTERVAL_pos
  have := Int.ceil_pos.mpr hq
  omega

theorem ceil_steps_dec {endT now : ℚ} (h : CHECK_INTERVAL < endT - now) :
    (⌈(endT - (now + CHECK_INTERVAL)) / CHECK_INTERVAL⌉).toNat =
      (⌈(endT - now) / CHECK_INTERVAL⌉).toNat - 1 := by
  have hq := CHECK_INTERVAL_pos
  have hdiv : (endT - (now + CHECK_INTERVAL)) / CHECK_INTERVAL =
      (endT - now) / CHECK_INTERVAL - 1 := by
    field_simp
    ring
  have hone : (1 : ℚ) < (endT - now) / CHECK_INTERVAL :=
    (one_lt_div hq).mpr h
  have h2 : 1 < ⌈(endT - now) / CHECK_INTERVAL⌉ := by
    exact_mod_cast Int.lt_ceil.mpr (by exact_mod_cast hone)
  rw [hdiv]
  rw [show ((1 : ℚ)) = ((1 : ℤ) : ℚ) by norm_num, Int.ceil_sub_int]
  omega

/-- With the interruption flag never set, a fully fuelled loop run reaches
the deadline and succeeds. -/
theorem sleepLoopF_ok (endT : ℚ) :
    ∀ fuel now, now ≤ endT → (⌈(endT - now) / CHECK_INTERVAL⌉).toNat ≤ fuel →
      sleepLoopF (fun _ => false) endT fuel now = .ok endT := by
  intro fuel
  induction fuel with
  | zero =>
    intro now hle hfuel
    have : ¬ now < endT := by
      intro hlt
      have := ceil_steps_pos hlt
      omega
    have hnow : now = endT := le_antisymm hle (not_lt.mp this)
    simp [sleepLoopF, hnow]
  | succ f ih =>
    intro now hle hfuel
    by_cases hlt : now < endT
    · rw [sleepLoopF, if_pos hlt]
      by_cases hstep : endT - now ≤ CHECK_INTERVAL
      · have hmin : min (endT - now) CHECK_INTERVAL = endT - now := min_eq_left hstep
        simp only [hmin]
        have hland : now + (endT - now) = endT := by ring
        rw [hland]
        exact ih endT le_rfl (by simp)
      · push_neg at hstep
        have hmin : min (endT - now) CHECK_INTERVAL = CHECK_INTERVAL :=
          min_eq_right (le_of_lt hstep)
        simp only [hmin]
        have hle1 : now + CHECK_INTERVAL ≤ endT := by linarith
        have hdec := ceil_steps_dec hstep
        have hpos := ceil_steps_pos hlt
        exact ih (now + CHECK_INTERVAL) hle1 (by omega)
    · have hnow : now = endT := le_antisymm hle (not_lt.mp hlt)
      rw [sleepLoopF, if_neg hlt]
      rw [hnow]

/-- Whatever the interruption flag does, a successful loop run ends exactly
at the deadline. -/
theorem sleepLoopF_ok_endpoint (inter : ℚ → Bool) (endT : ℚ) :
    ∀ fuel now t1, now ≤ endT → (⌈(endT - now) / CHECK_INTERVAL⌉).toNat ≤ fuel →
      sleepLoopF inter endT fuel now = .ok t1 → t1 = endT := by
  intro fuel
  induction fuel with
  | zero =>
    intro now t1 hle hfuel hrun
    have : ¬ now < endT := by
      intro hlt
      have := ceil_steps_pos hlt
      omega
    have hnow : now = endT := le_antisymm hle (not_lt.mp this)
    simp only [sleepLoopF, Except.ok.injEq] at hrun
    rw [← hrun, hnow]
  | succ f ih =>
    intro now t1 hle hfuel hrun
    by_cases hlt : now < endT
    · rw [sleepLoopF, if_pos hlt] at hrun
      by_cases hint : inter now
      · rw [if_pos hint] at hrun
        exact absurd hrun (by simp)
      · rw [if_neg hint] at hrun
        by_cases hstep : endT - now ≤ CHECK_INTERVAL
        · have hmin : min (endT - now) CHECK_INTERVAL = endT - now := min_eq_left hstep
          simp only [hmin] at hrun
          have hland : now + (endT - now) = endT := by ring
          rw [hland] at hrun
          exact ih endT t1 le_rfl (by simp) hrun
        · push_neg at hstep
          have hmin : min (endT - now) CHECK_INTERVAL = CHECK_INTERVAL :=
            min_eq_right (le_of_lt hstep)
          simp only [hmin] at hrun
          have hdec := ceil_steps_dec hstep
          have hpos := ceil_steps_pos hlt
          exact ih (now + CHECK_INTERVAL) t1 (by linarith) (by omega) hrun
    · rw [sleepLoopF, if_neg hlt] at hrun
      have hnow : now = endT := le_antisymm hle (not_lt.mp hlt)
      simp only [Except.ok.injEq] at hrun
      rw [← hrun, hnow]

/-- A poll that sees the interruption flag set before the deadline throws
immediately. -/
theorem sleepLoopF_error_now (inter : ℚ → Bool) (endT : ℚ) (fuel : ℕ) (now : ℚ)
    (hint : inter now = true) (hlt : now < endT) (hfuel : 1 ≤ fuel) :
    sleepLoopF inter endT fuel now = .error (.interrupted now) := by
  obtain ⟨f, rfl⟩ : ∃ f, fuel = f + 1 := ⟨fuel - 1, by omega⟩
  rw [sleepLoopF, if_pos hlt, if_pos hint]

/-- Cancellation core: if the interruption flag is monotone, is set from time
`T` on, and more than one polling quantum remains after `T`, then a fully
fuelled loop run started at or before `T` fails at a poll no later than
`T + CHECK_INTERVAL`. -/
theorem sleepLoopF_cancel (inter : ℚ → Bool) (endT T : ℚ)
    (hmono : ∀ a b : ℚ, a ≤ b → inter a = true → inter b = true)
    (hT : inter T = true) (hend : T + CHECK_INTERVAL < endT) :
    ∀ fuel now, now ≤ T → (⌈(endT - now) / CHECK_INTERVAL⌉).toNat ≤ fuel →
      ∃ tf, sleepLoopF inter endT fuel now = .error (.interrupted tf) ∧
        tf ≤ T + CHECK_INTERVAL := by
  have hq := CHECK_INTERVAL_pos
  intro fuel
  induction fuel with
  | zero =>
    intro now hnowT hfuel
    have hlt : now < endT := by linarith
    have := ceil_steps_pos hlt
    omega
  | succ f ih =>
    intro now hnowT hfuel
    have hlt : now < endT := by linarith
    by_cases hint : inter now
    · exact ⟨now, sleepLoopF_error_now inter endT (f + 1) now hint hlt (by omega),
        by linarith⟩
    · rw [sleepLoopF, if_pos hlt, if_neg (by simp [hint])]
      have hstep : CHECK_INTERVAL < endT - now := by linarith
      have hmin : min (endT - now) CHECK_INTERVAL = CHECK_INTERVAL :=
        min_eq_right (le_of_lt hstep)
      simp only [hmin]
      have hdec := ceil_steps_dec hstep
      have hpos := ceil_steps_pos hlt
      by_cases hcross : now + CHECK_INTERVAL ≤ T
      · exact ih (now + CHECK_INTERVAL) hcross (by omega)
      · push_neg at hcross
        have hint1 : inter (now + CHECK_INTERVAL) = true :=
          hmono T (now + CHECK_INTERVAL) (le_of_lt hcross) hT
        have hlt1 : now + CHECK_INTERVAL < endT := by linarith
        have hf1 : 1 ≤ f := by
          have := ceil_steps_pos hlt1
          omega
        exact ⟨now + CHECK_INTERVAL,
          sleepLoopF_error_now inter endT f (now + CHECK_INTERVAL) hint1 hlt1 hf1,
          by linarith⟩

/-- Fully fuelled specialisations of the loop lemmas. -/
theorem sleepLoop_ok {endT now : ℚ} (h : now ≤ endT) :
    sleepLoop (fun _ => false) endT now = .ok endT :=
  sleepLoopF_ok endT (sleepFuel endT now) now h (by rw [sleepFuel]; omega)

theorem sleepLoop_ok_endpoint {inter : ℚ → Bool} {endT now t1 : ℚ} (h : now ≤ endT)
    (hrun : sleepLoop inter endT now = .ok t1) : t1 = endT :=
  sleepLoopF_ok_endpoint inter endT (sleepFuel endT now) now t1 h
    (by rw [sleepFuel]; omega) hrun

theorem sleepLoop_error_now {inter : ℚ → Bool} {endT now : ℚ}
    (hint : inter now = true) (hlt : now < endT) :
    sleepLoop inter endT now = .error (.interrupted now) :=
  sleepLoopF_error_now inter endT (sleepFuel endT now) now hint hlt
    (by rw [sleepFuel]; omega)

theorem sleepLoop_cancel {inter : ℚ → Bool} {endT T now : ℚ}
    (hmono : ∀ a b : ℚ, a ≤ b → inter a = true → inter b = true)
    (hT : inter T = true) (hend : T + CHECK_INTERVAL < endT) (hnow : now ≤ T) :
    ∃ tf, sleepLoop inter endT now = .error (.interrupted tf) ∧
      tf ≤ T + CHECK_INTERVAL :=
  sleepLoopF_cancel inter endT T hmono hT hend (sleepFuel endT now) now hnow
    (by rw [sleepFuel]; omega)

/-- The normaliser only produces durations inside `[0, MAX_SLEEP_SECONDS]`. -/
theorem normalizeSleepSeconds_bounds {s : FloatVal} {d : ℚ}
    (h : normalizeSleepSeconds s = .ok d) : 0 ≤ d ∧ d ≤ MAX_SLEEP_SECONDS := by
  rw [normalizeSleepSeconds] at h
  by_cases hnan : s.isNaN
  · rw [if_pos hnan] at h
    exact absurd h (by simp)
  · rw [if_neg hnan] at h
    simp only at h
    set q := (if s.isInf then FloatVal.finite MAX_SLEEP_SECONDS else s).toRat with hq
    by_cases h0 : q ≤ 0
    · rw [if_pos h0] at h
      simp only [Except.ok.injEq] at h
      rw [← h]
      norm_num [MAX_SLEEP_SECONDS]
    · rw [if_neg h0] at h
      push_neg at h0
      by_cases hmax : MAX_SLEEP_SECONDS < q
      · rw [if_pos hmax] at h
        simp only [Except.ok.injEq] at h
        rw [← h]
        norm_num [MAX_SLEEP_SECONDS]
      · rw [if_neg hmax] at h
        push_neg at hmax
        simp only [Except.ok.injEq] at h
        rw [← h]
        exact ⟨le_of_lt h0, hmax⟩

/-- On inputs that pass the NaN check, `PerformSleep` with the interruption
flag never set completes at exactly start time plus the normalised
duration. -/
theorem performSleep_noInter {s : FloatVal} {d : ℚ} (now : ℚ)
    (h : normalizeSleepSeconds s = .ok d) :
    performSleep (fun _ => false) now s = .ok (now + d) := by
  have hd := (normalizeSleepSeconds_bounds h).1
  rw [performSleep, h]
  exact sleepLoop_ok (by linarith)

/-- A successful `PerformSleep` run ends exactly at start time plus the
effective duration, whatever the interruption flag does. -/
theorem performSleep_ok_time {inter : ℚ → Bool} {s : FloatVal} {now t1 : ℚ}
    (hrun : performSleep inter now s = .ok t1) : t1 = now + effectiveSeconds s := by
  rw [performSleep] at hrun
  cases hn : normalizeSleepSeconds s with
  | error e =>
    rw [hn] at hrun
    exact absurd hrun (by simp)
  | ok d =>
    rw [hn] at hrun
    have hd := (normalizeSleepSeconds_bounds hn).1
    have := sleepLoop_ok_endpoint (by linarith : now ≤ now + d) hrun
    rw [this, effectiveSeconds, hn]

/-- Values other than NaN always pass the normaliser. -/
theorem normalizeSleepSeconds_ok_of_ne_nan {s : FloatVal} (h : s ≠ .nan) :
    normalizeSleepSeconds s = .ok (effectiveSeconds s) := by
  have hnan : s.isNaN = false := by
    cases s <;> simp_all [FloatVal.isNaN]
  rw [effectiveSeconds]
  cases hn : normalizeSleepSeconds s with
  | ok d => rfl
  | error e =>
    rw [normalizeSleepSeconds, if_neg (by simp [hnan])] at hn
    simp only at hn
    split_ifs at hn

theorem runRows_nil {α : Type} (step : ℚ → α → Except SleepError ℚ) (t : ℚ) :
    runRows step t [] = ([], t, none) :=
  rfl

theorem runRows_cons_none {α : Type} (step : ℚ → α → Except SleepError ℚ) (t : ℚ)
    (rest : List (Option α)) : runRows step t (none :: rest) = runRows step t rest :=
  rfl

theorem runRows_cons_some_error {α : Type} {step : ℚ → α → Except SleepError ℚ}
    {t : ℚ} {a : α} {e : SleepError} (rest : List (Option α))
    (hs : step t a = .error e) :
    runRows step t (some a :: rest) = ([], t, some e) := by
  rw [runRows, hs]

theorem runRows_cons_some_ok {α : Type} {step : ℚ → α → Except SleepError ℚ}
    {t : ℚ} {a : α} {t1 : ℚ} (rest : List (Option α)) (hs : step t a = .ok t1) :
    runRows step t (some a :: rest) =
      ((t1 - t) :: (runRows step t1 rest).1, (runRows step t1 rest).2) := by
  rw [runRows, hs]

/-- An error in an initial segment of the batch aborts it: rows appended after the
failing row are never started and change nothing. -/
theorem runRows_error_append {α : Type} (step : ℚ → α → Except SleepError ℚ)
    (rows2 : List (Option α)) :
    ∀ (rows1 : List (Option α)) (t : ℚ) (tr : List ℚ) (tf : ℚ) (e : SleepError),
      runRows step t rows1 = (tr, tf, some e) →
        runRows step t (rows1 ++ rows2) = (tr, tf, some e) := by
  intro rows1
  induction rows1 with
  | nil =>
    intro t tr tf e h
    exact absurd h (by simp [runRows])
  | cons r rest ih =>
    intro t tr tf e h
    cases r with
    | none =>
      rw [runRows] at h
      rw [List.cons_append, runRows]
      exact ih t tr tf e h
    | some a =>
      rw [List.cons_append]
      cases hs : step t a with
      | error e1 =>
        rw [runRows_cons_some_error rest hs] at h
        rw [runRows_cons_some_error (rest ++ rows2) hs]
        exact h
      | ok t1 =>
        rw [runRows_cons_some_ok rest hs] at h
        rw [runRows_cons_some_ok (rest ++ rows2) hs]
        cases hrec : runRows step t1 rest with
        | mk tr1 rest1 =>
          rw [hrec] at h
          cases rest1 with
          | mk tf1 e1 =>
            cases e1 with
            | none => simp at h
            | some e2 =>
              simp only [Prod.mk.injEq] at h
              obtain ⟨htr, htf, he⟩ := h
              rw [ih t1 tr1 tf1 e2 hrec]
              simp [← htr, htf, he]

/-- On a batch that completes without error, every non-null row contributes
exactly one completed wait, and null rows contribute none. -/
theorem runRows_ok_length {α : Type} (step : ℚ → α → Except SleepError ℚ) :
    ∀ (rows : List (Option α)) (t : ℚ) (tr : List ℚ) (tf : ℚ),
      runRows step t rows = (tr, tf, none) →
        tr.length = (rows.filterMap id).length := by
  intro rows
  induction rows with
  | nil =>
    intro t tr tf h
    simp only [runRows, Prod.mk.injEq] at h
    simp [← h.1]
  | cons r rest ih =>
    intro t tr tf h
    cases r with
    | none =>
      rw [runRows] at h
      simpa using ih t tr tf h
    | some a =>
      rw [runRows] at h
      cases hs : step t a with
      | error e1 =>
        rw [hs] at h
        simp at h
      | ok t1 =>
        rw [hs] at h
        simp only at h
        cases hrec : runRows step t1 rest with
        | mk tr1 rest1 =>
          rw [hrec] at h
          cases rest1 with
          | mk tf1 e1 =>
            simp only [Prod.mk.injEq] at h
            obtain ⟨htr, htf, he⟩ := h
            rw [he] at hrec
            have := ih t1 tr1 tf1 hrec
            simp [← htr, this]

/-- On a batch that completes without error, when the completion time of each row
is start time plus a duration determined by the row value, the trace is
exactly the per-row durations of the non-null rows, in order. -/
theorem runRows_ok_trace {α : Type} (step : ℚ → α → Except SleepError ℚ)
    (dur : α → ℚ) (hstep : ∀ (t : ℚ) (a : α) (t1 : ℚ), step t a = .ok t1 → t1 = t + dur a) :
    ∀ (rows : List (Option α)) (t : ℚ) (tr : List ℚ) (tf : ℚ),
      runRows step t rows = (tr, tf, none) →
        tr = (rows.filterMap id).map dur := by
  intro rows
  induction rows with
  | nil =>
    intro t tr tf h
    simp only [runRows, Prod.mk.injEq] at h
    simp [← h.1]
  | cons r rest ih =>
    intro t tr tf h
    cases r with
    | none =>
      rw [runRows] at h
      simpa using ih t tr tf h
    | some a =>
      rw [runRows] at h
      cases hs : step t a with
      | error e1 =>
        rw [hs] at h
        simp at h
      | ok t1 =>
        rw [hs] at h
        simp only at h
        cases hrec : runRows step t1 rest with
        | mk tr1 rest1 =>
          rw [hrec] at h
          cases rest1 with
          | mk tf1 e1 =>
            simp only [Prod.mk.injEq] at h
            obtain ⟨htr, htf, he⟩ := h
            rw [he] at hrec
            have htail := ih t1 tr1 tf1 hrec
            have hdur := hstep t a t1 hs
            simp [← htr, htail, hdur]

/-- Bounds for the effective duration of any non-NaN input. -/
theorem effectiveSeconds_bounds {s : FloatVal} (h : s ≠ .nan) :
    0 ≤ effectiveSeconds s ∧ effectiveSeconds s ≤ MAX_SLEEP_SECONDS :=
  normalizeSleepSeconds_bounds (normalizeSleepSeconds_ok_of_ne_nan h)

/-- The polling loop only ever fails with an interruption. -/
theorem sleepLoopF_error_kind (inter : ℚ → Bool) (endT : ℚ) :
    ∀ (fuel : ℕ) (now : ℚ) (e : SleepError),
      sleepLoopF inter endT fuel now = .error e → ∃ tf, e = .interrupted tf := by
  intro fuel
  induction fuel with
  | zero =>
    intro now e h
    exact absurd h (by simp [sleepLoopF])
  | succ f ih =>
    intro now e h
    rw [sleepLoopF] at h
    by_cases hlt : now < endT
    · rw [if_pos hlt] at h
      by_cases hint : inter now
      · rw [if_pos hint] at h
        simp only [Except.error.injEq] at h
        exact ⟨now, h.symm⟩
      · rw [if_neg hint] at h
        exact ih _ e h
    · rw [if_neg hlt] at h
      exact absurd h (by simp)

/-- `PerformSleep` on a non-NaN value only ever fails with an interruption. -/
theorem performSleep_error_kind {inter : ℚ → Bool} {now : ℚ} {s : FloatVal}
    {e : SleepError} (hs : s ≠ .nan) (h : performSleep inter now s = .error e) :
    ∃ tf, e = .interrupted tf := by
  rw [performSleep, normalizeSleepSeconds_ok_of_ne_nan hs] at h
  exact sleepLoopF_error_kind inter _ _ _ e h

/-- Any error escaping the row loop is an error of some row body. -/
theorem runRows_error_of_step {α : Type} (step : ℚ → α → Except SleepError ℚ)
    (P : SleepError → Prop)
    (hstep : ∀ (t : ℚ) (a : α) (e : SleepError), step t a = .error e → P e) :
    ∀ (rows : List (Option α)) (t : ℚ) (tr : List ℚ) (tf : ℚ) (e : SleepError),
      runRows step t rows = (tr, tf, some e) → P e := by
  intro rows
  induction rows with
  | nil =>
    intro t tr tf e h
    exact absurd h (by simp [runRows])
  | cons r rest ih =>
    intro t tr tf e h
    cases r with
    | none =>
      rw [runRows_cons_none] at h
      exact ih t tr tf e h
    | some a =>
      cases hs : step t a with
      | error e1 =>
        rw [runRows_cons_some_error rest hs] at h
        simp only [Prod.mk.injEq, Option.some.injEq] at h
        rw [← h.2.2]
        exact hstep t a e1 hs
      | ok t1 =>
        rw [runRows_cons_some_ok rest hs] at h
        cases hrec : runRows step t1 rest with
        | mk tr1 rest1 =>
          rw [hrec] at h
          cases rest1 with
          | mk tf1 e1 =>
            simp only [Prod.mk.injEq] at h
            cases e1 with
            | none => simp at h
            | some e2 =>
              simp only [Option.some.injEq] at h
              rw [← h.2.2]
              exact ih t1 tr1 tf1 e2 hrec

/-! Claim theorems. -/

/-- Claim C1, counterexample: the claim says sleep(-infinity) collapses to a
no-op (zero-length wait) via the `<= 0` rule and is not substituted with
MAX_SLEEP_SECONDS.  In the code `std::isinf` is true for negative infinity
as well, so the normaliser substitutes MAX_SLEEP_SECONDS: the effective
wait duration is 3600 seconds, not 0. -/
theorem claim_C1_counterexample :
    normalizeSleepSeconds FloatVal.negInf = .ok MAX_SLEEP_SECONDS ∧
      normalizeSleepSeconds FloatVal.negInf ≠ .ok 0 := by
  have h : normalizeSleepSeconds FloatVal.negInf = .ok MAX_SLEEP_SECONDS := by
    norm_num [normalizeSleepSeconds, FloatVal.isNaN, FloatVal.isInf, FloatVal.toRat,
      MAX_SLEEP_SECONDS]
  refine ⟨h, ?_⟩
  rw [h]
  norm_num [MAX_SLEEP_SECONDS]

/-- Claim C1, amended: the direct-seconds entry point DOES distinguish
negative infinity from large negative finite values: negative infinity is
caught by the `std::isinf` branch and substituted with MAX_SLEEP_SECONDS
(a 3600-second wait), while every negative finite value collapses to a
zero-length wait via the `<= 0` rule. -/
theorem claim_C1_amended :
    normalizeSleepSeconds FloatVal.negInf = .ok MAX_SLEEP_SECONDS ∧
      ∀ q : ℚ, q < 0 → normalizeSleepSeconds (.finite q) = .ok 0 := by
  constructor
  · norm_num [normalizeSleepSeconds, FloatVal.isNaN, FloatVal.isInf, FloatVal.toRat,
      MAX_SLEEP_SECONDS]
  · intro q hq
    rw [normalizeSleepSeconds]
    norm_num [FloatVal.isNaN, FloatVal.isInf, FloatVal.toRat]
    intro h
    linarith

theorem claim_C1_amended_witness :
    normalizeSleepSeconds (.finite (-5)) = .ok 0 :=
  claim_C1_amended.2 (-5) (by norm_num)

/-- Claim C2: for every direct-seconds input that is neither NaN nor negative
infinity, the effective wait duration is `min(max(s, 0), MAX_SLEEP_SECONDS)`
(with positive infinity substituted by MAX_SLEEP_SECONDS), as computed by
the spec-side `specClampSeconds`. -/
theorem claim_C2_clamp (s : FloatVal) (h1 : s ≠ .nan) (h2 : s ≠ .negInf) :
    normalizeSleepSeconds s = .ok (specClampSeconds s) := by
  cases s with
  | nan => exact absurd rfl h1
  | negInf => exact absurd rfl h2
  | posInf =>
    norm_num [normalizeSleepSeconds, specClampSeconds, FloatVal.isNaN, FloatVal.isInf,
      FloatVal.toRat, MAX_SLEEP_SECONDS]
  | finite q =>
    show normalizeSleepSeconds (.finite q) = .ok (min (max q 0) MAX_SLEEP_SECONDS)
    rw [normalizeSleepSeconds]
    simp only [FloatVal.isNaN, FloatVal.isInf, FloatVal.toRat, Bool.false_eq_true,
      if_false]
    split_ifs with h0 hmax
    · rw [max_eq_right h0, min_eq_left (by norm_num [MAX_SLEEP_SECONDS])]
    · push_neg at h0
      rw [max_eq_left (le_of_lt h0), min_eq_right (le_of_lt hmax)]
    · push_neg at h0 hmax
      rw [max_eq_left (le_of_lt h0), min_eq_left hmax]

theorem claim_C2_clamp_witness :
    normalizeSleepSeconds (.finite 5000) = .ok (specClampSeconds (.finite 5000)) :=
  claim_C2_clamp (.finite 5000) (by simp) (by simp)

/-- Claim C4, failing-input evaluation: for current timestamp
1700000000000000 microseconds (November 2023) and the non-sentinel target
INT64_MIN + 1 — a timestamp in the far past, so the claim prescribes a
no-op — the int64 subtraction `target - now` underflows and wraps to a huge
positive value, and the row waits MAX_SLEEP_SECONDS (3600 seconds) instead
of returning immediately. -/
theorem claim_C4_underflow_eval :
    sleepUntilEffective 1700000000000000 (INT64_MIN + 1) = MAX_SLEEP_SECONDS ∧
      INT64_MIN + 1 - 1700000000000000 < 0 ∧
      INT64_MIN + 1 ≠ INT64_MIN ∧ INT64_MIN + 1 ≠ INT64_MAX := by
  refine ⟨?_, by norm_num [INT64_MIN], by norm_num [INT64_MIN],
    by norm_num [INT64_MIN, INT64_MAX]⟩
  norm_num [sleepUntilEffective, sleepUntilSeconds, effectiveSeconds,
    normalizeSleepSeconds, FloatVal.isNaN, FloatVal.isInf, FloatVal.toRat,
    MAX_SLEEP_SECONDS, INT64_MIN, INT64_MAX, i64wrap]

/-- Claim C5: the pre-clamp duration of a `sleep_for` row equals the spec
formula `days*86400 + months*2592000 + micros/1000000` (months approximated
as 30 days), and the row feeds that value through the same
normalise-then-wait path as the direct-seconds entry point, completing at
start time plus the clamped effective duration. -/
theorem claim_C5_interval :
    (∀ iv : interval_t, intervalToSeconds iv = specIntervalSeconds iv) ∧
      ∀ (t : ℚ) (iv : interval_t),
        sleepForRow (fun _ => false) t iv =
          .ok (t + effectiveSeconds (.finite (specIntervalSeconds iv))) := by
  constructor
  · intro iv
    rfl
  · intro t iv
    rw [sleepForRow, show specIntervalSeconds iv = intervalToSeconds iv from rfl]
    exact performSleep_noInter t (normalizeSleepSeconds_ok_of_ne_nan (by simp))

theorem claim_C5_interval_witness :
    sleepForRow (fun _ => false) 0 ⟨0, 0, 500000⟩ =
      .ok (0 + effectiveSeconds (.finite (specIntervalSeconds ⟨0, 0, 500000⟩))) :=
  claim_C5_interval.2 0 ⟨0, 0, 500000⟩

/-- Claim C8: the canonical duration used by the waiter always lies in
`[0, MAX_SLEEP_SECONDS]` (finiteness holds by construction: the normaliser
returns a rational).  The three conjuncts cover the direct-seconds
normaliser, the interval conversion and the timestamp conversion. -/
theorem claim_C8_invariant :
    (∀ (s : FloatVal) (d : ℚ), normalizeSleepSeconds s = .ok d →
        0 ≤ d ∧ d ≤ MAX_SLEEP_SECONDS) ∧
      (∀ iv : interval_t, 0 ≤ effectiveSeconds (.finite (intervalToSeconds iv)) ∧
        effectiveSeconds (.finite (intervalToSeconds iv)) ≤ MAX_SLEEP_SECONDS) ∧
      ∀ nowTs target : ℤ, 0 ≤ sleepUntilEffective nowTs target ∧
        sleepUntilEffective nowTs target ≤ MAX_SLEEP_SECONDS := by
  refine ⟨fun s d h => normalizeSleepSeconds_bounds h,
    fun iv => effectiveSeconds_bounds (by simp), ?_⟩
  intro nowTs target
  unfold sleepUntilEffective sleepUntilSeconds
  by_cases h1 : target = INT64_MIN
  · rw [if_pos h1]
    norm_num [MAX_SLEEP_SECONDS]
  · rw [if_neg h1]
    by_cases h2 : target = INT64_MAX
    · rw [if_pos h2]
      exact effectiveSeconds_bounds (by simp)
    · rw [if_neg h2]
      exact effectiveSeconds_bounds (by simp)

theorem claim_C8_invariant_witness :
    (0 ≤ MAX_SLEEP_SECONDS ∧ MAX_SLEEP_SECONDS ≤ MAX_SLEEP_SECONDS) ∧
      0 ≤ sleepUntilEffective 0 42 ∧ sleepUntilEffective 0 42 ≤ MAX_SLEEP_SECONDS :=
  ⟨claim_C8_invariant.1 .posInf MAX_SLEEP_SECONDS
      (by norm_num [normalizeSleepSeconds, FloatVal.isNaN, FloatVal.isInf,
        FloatVal.toRat, MAX_SLEEP_SECONDS]),
    claim_C8_invariant.2.2 0 42⟩

/-- Claim C10: the normalisation is idempotent — the effective duration
produced for any input is a fixed point, and in fact every value of
`[0, MAX_SLEEP_SECONDS]` is a fixed point of the normalisation. -/
theorem claim_C10_idempotent :
    (∀ (s : FloatVal) (d : ℚ), normalizeSleepSeconds s = .ok d →
        normalizeSleepSeconds (.finite d) = .ok d) ∧
      ∀ q : ℚ, 0 ≤ q → q ≤ MAX_SLEEP_SECONDS → normalizeSleepSeconds (.finite q) = .ok q := by
  have fix : ∀ q : ℚ, 0 ≤ q → q ≤ MAX_SLEEP_SECONDS →
      normalizeSleepSeconds (.finite q) = .ok q := by
    intro q hq0 hqM
    rw [normalizeSleepSeconds]
    simp only [FloatVal.isNaN, FloatVal.isInf, FloatVal.toRat, Bool.false_eq_true,
      if_false]
    split_ifs with h0 hmax
    · rw [le_antisymm h0 hq0]
    · exact absurd hqM (not_le.mpr hmax)
    · rfl
  refine ⟨fun s d h => ?_, fix⟩
  obtain ⟨hd0, hdM⟩ := normalizeSleepSeconds_bounds h
  exact fix d hd0 hdM

theorem claim_C10_idempotent_witness :
    normalizeSleepSeconds (.finite MAX_SLEEP_SECONDS) = .ok MAX_SLEEP_SECONDS :=
  claim_C10_idempotent.1 .posInf MAX_SLEEP_SECONDS
    (by norm_num [normalizeSleepSeconds, FloatVal.isNaN, FloatVal.isInf,
      FloatVal.toRat, MAX_SLEEP_SECONDS])

/-- Claim C3: in a direct-seconds batch whose first non-null NaN value sits
after the initial rows `pre` (no cancellation pending), the invocation fails with
`InvalidInputException` at that row before it performs any sleeping: the
non-null rows of `pre` have completed exactly their effective waits (the
final time is the start time plus their sum), the NaN row adds nothing, and
the rows after it are never started. -/
theorem claim_C3_nan_aborts (t : ℚ) (pre post : List (Option FloatVal))
    (hpre : ∀ v : FloatVal, some v ∈ pre → v ≠ .nan) :
    sleepBatch (fun _ => false) t (pre ++ some FloatVal.nan :: post) =
      ((pre.filterMap id).map effectiveSeconds,
        t + ((pre.filterMap id).map effectiveSeconds).sum, some .invalidInput) := by
  induction pre generalizing t with
  | nil =>
    rw [sleepBatch, List.nil_append]
    rw [runRows_cons_some_error post
      (show performSleep (fun _ => false) t .nan = .error .invalidInput from rfl)]
    simp
  | cons r rest ih =>
    cases r with
    | none =>
      rw [sleepBatch, List.cons_append, runRows_cons_none]
      have htail := ih t (fun v hv => hpre v (List.mem_cons_of_mem _ hv))
      rw [sleepBatch] at htail
      simpa using htail
    | some v =>
      have hv : v ≠ FloatVal.nan := hpre v (List.mem_cons_self _ _)
      have hstep := performSleep_noInter t (normalizeSleepSeconds_ok_of_ne_nan hv)
      rw [sleepBatch, List.cons_append, runRows_cons_some_ok _ hstep]
      have htail := ih (t + effectiveSeconds v)
        (fun u hu => hpre u (List.mem_cons_of_mem _ hu))
      rw [sleepBatch] at htail
      rw [htail]
      have hfm : List.filterMap id (some v :: rest) = v :: List.filterMap id rest := by
        simp
      rw [hfm]
      simp only [List.map_cons, List.sum_cons, Prod.mk.injEq]
      refine ⟨?_, by ring, trivial⟩
      rw [show t + effectiveSeconds v - t = effectiveSeconds v from by ring]

theorem claim_C3_nan_aborts_witness :
    sleepBatch (fun _ => false) 0
        ([some (FloatVal.finite 0), none] ++ some FloatVal.nan :: [some (FloatVal.finite 1)]) =
      ((([some (FloatVal.finite 0), none] : List (Option FloatVal)).filterMap id).map
          effectiveSeconds,
        0 + ((([some (FloatVal.finite 0), none] : List (Option FloatVal)).filterMap
          id).map effectiveSeconds).sum, some .invalidInput) :=
  claim_C3_nan_aborts 0 [some (.finite 0), none] [some (.finite 1)]
    (by intro v hv; simp only [List.mem_cons, List.not_mem_nil, or_false,
          Option.some.injEq, reduceCtorEq] at hv; subst hv; simp)

/-- Claim C6, counterexample: the claim says a cancellation signal that
becomes true during a wait with a still-future deadline makes the wait fail
with the interruption error and never return success.  With a wait from
time 0 to deadline 1/20 (50 ms, shorter than one polling quantum) and a
signal that becomes true at 3/100 (30 ms, before the deadline), the single
poll happens at time 0 where the signal is still false, and the wait
returns success. -/
theorem claim_C6_counterexample :
    sleepLoop (fun u => decide ((3 : ℚ) / 100 ≤ u)) (1 / 20) 0 = .ok (1 / 20) ∧
      (fun u => decide ((3 : ℚ) / 100 ≤ u)) 0 = false ∧
      (fun u => decide ((3 : ℚ) / 100 ≤ u)) (3 / 100) = true ∧
      (3 : ℚ) / 100 < 1 / 20 := by
  refine ⟨?_, by norm_num, by norm_num, by norm_num⟩
  have hfuel : sleepFuel (1 / 20) 0 = 2 := by
    have hdiv : ((1 : ℚ) / 20 - 0) / CHECK_INTERVAL = 1 / 2 := by
      rw [CHECK_INTERVAL, CHECK_INTERVAL_MS]
      norm_num
    have hceil : ⌈(1 : ℚ) / 2⌉ = 1 := by
      rw [Int.ceil_eq_iff]
      constructor <;> norm_num
    rw [sleepFuel, hdiv, hceil]
    rfl
  rw [sleepLoop, hfuel, show (2 : ℕ) = 1 + 1 from rfl, sleepLoopF]
  rw [if_pos (by norm_num), if_neg (by norm_num)]
  dsimp only
  rw [show min ((1 : ℚ) / 20 - 0) CHECK_INTERVAL = 1 / 20 - 0 from
    min_eq_left (by rw [CHECK_INTERVAL, CHECK_INTERVAL_MS]; norm_num)]
  rw [show (0 : ℚ) + (1 / 20 - 0) = 1 / 20 from by ring,
    show (1 : ℕ) = 0 + 1 from rfl, sleepLoopF]
  rw [if_neg (by norm_num)]

/-- Claim C6, amended: a monotone cancellation signal that is true from time
`T` on, with more than one polling quantum left before the deadline, makes a
wait started at or before `T` fail with the interruption error at a polling
check no later than `T + CHECK_INTERVAL`; and an error aborts the batch —
rows after the failing one are never started.  (The counterexample above
shows the original claim fails when the signal turns true after the last
polling check of the wait, inside a final fractional quantum.) -/
theorem claim_C6_cancel :
    (∀ (inter : ℚ → Bool) (T endT now : ℚ),
        (∀ a b : ℚ, a ≤ b → inter a = true → inter b = true) →
        inter T = true → now ≤ T → T + CHECK_INTERVAL < endT →
        ∃ tf, sleepLoop inter endT now = .error (.interrupted tf) ∧
          tf ≤ T + CHECK_INTERVAL) ∧
      ∀ (inter : ℚ → Bool) (t : ℚ) (rows1 rows2 : List (Option FloatVal))
        (tr : List ℚ) (tf : ℚ) (e : SleepError),
        sleepBatch inter t rows1 = (tr, tf, some e) →
        sleepBatch inter t (rows1 ++ rows2) = (tr, tf, some e) := by
  constructor
  · intro inter T endT now hmono hT hnow hend
    exact sleepLoop_cancel hmono hT hend hnow
  · intro inter t rows1 rows2 tr tf e h
    rw [sleepBatch] at h ⊢
    exact runRows_error_append (performSleep inter) rows2 rows1 t tr tf e h

theorem claim_C6_cancel_witness :
    (∃ tf, sleepLoop (fun _ => true) 1 0 = .error (.interrupted tf) ∧
        tf ≤ 0 + CHECK_INTERVAL) ∧
      sleepBatch (fun _ => true) 0 ([some FloatVal.nan] ++ [some (FloatVal.finite 1)]) =
        ([], 0, some .invalidInput) := by
  constructor
  · exact claim_C6_cancel.1 (fun _ => true) 0 1 0 (fun a b hab h => h) rfl le_rfl
      (by rw [CHECK_INTERVAL, CHECK_INTERVAL_MS]; norm_num)
  · refine claim_C6_cancel.2 (fun _ => true) 0 [some .nan] [some (.finite 1)] [] 0
      .invalidInput ?_
    rw [sleepBatch]
    exact runRows_cons_some_error []
      (show performSleep (fun _ => true) 0 .nan = .error .invalidInput from rfl)

/-- Claim C7: for all three entry points, the output column of a batch is
null for every row; on a batch that completes without error, the non-null
rows each performed exactly their effective wait, in row order, and the
null rows performed none (for `sleep_until`, whose per-row duration depends
on the sampled clock, the trace has exactly one completed wait per non-null
row). -/
theorem claim_C7_null_rows :
    (∀ (n : ℕ) (o : Option Unit), o ∈ batchResult n → o = none) ∧
      (∀ (inter : ℚ → Bool) (t : ℚ) (rows : List (Option FloatVal)) (tr : List ℚ)
        (tf : ℚ), sleepBatch inter t rows = (tr, tf, none) →
          tr = (rows.filterMap id).map effectiveSeconds) ∧
      (∀ (inter : ℚ → Bool) (t : ℚ) (rows : List (Option interval_t)) (tr : List ℚ)
        (tf : ℚ), sleepForBatch inter t rows = (tr, tf, none) →
          tr = (rows.filterMap id).map
            (fun iv => effectiveSeconds (.finite (intervalToSeconds iv)))) ∧
      ∀ (inter : ℚ → Bool) (tsOf : ℚ → ℤ) (t : ℚ) (rows : List (Option ℤ))
        (tr : List ℚ) (tf : ℚ), sleepUntilBatch inter tsOf t rows = (tr, tf, none) →
          tr.length = (rows.filterMap id).length := by
  refine ⟨?_, ?_, ?_, ?_⟩
  · intro n o ho
    rw [batchResult] at ho
    exact List.eq_of_mem_replicate ho
  · intro inter t rows tr tf h
    exact runRows_ok_trace (performSleep inter) effectiveSeconds
      (fun t1 a t2 h2 => performSleep_ok_time h2) rows t tr tf h
  · intro inter t rows tr tf h
    exact runRows_ok_trace (sleepForRow inter)
      (fun iv => effectiveSeconds (.finite (intervalToSeconds iv)))
      (fun t1 a t2 h2 => performSleep_ok_time h2) rows t tr tf h
  · intro inter tsOf t rows tr tf h
    exact runRows_ok_length (sleepUntilRow inter tsOf) rows t tr tf h

theorem claim_C7_null_rows_witness :
    ((none : Option Unit) = none) ∧
      ([0] : List ℚ) = (([none, some (FloatVal.finite 0)] :
        List (Option FloatVal)).filterMap id).map effectiveSeconds := by
  have hnorm : normalizeSleepSeconds (.finite 0) = .ok 0 := by
    norm_num [normalizeSleepSeconds, FloatVal.isNaN, FloatVal.isInf, FloatVal.toRat]
  have hstep : performSleep (fun _ => false) 0 (.finite 0) = .ok 0 := by
    simpa using performSleep_noInter 0 hnorm
  refine ⟨claim_C7_null_rows.1 1 none (by rw [batchResult]; simp), ?_⟩
  refine claim_C7_null_rows.2.1 (fun _ => false) 0 [none, some (.finite 0)] [0] 0 ?_
  rw [sleepBatch, runRows_cons_none, runRows_cons_some_ok [] hstep, runRows_nil]
  simp

/-- Claim C9: the interval and timestamp entry points never fail with
`InvalidInputException`: their integer-based conversions always hand the
normaliser a finite (non-NaN) value, so the only possible error is the
interruption. -/
theorem claim_C9_no_invalid_argument :
    (∀ (inter : ℚ → Bool) (t : ℚ) (rows : List (Option interval_t)) (tr : List ℚ)
        (tf : ℚ) (e : SleepError),
        sleepForBatch inter t rows = (tr, tf, some e) → e ≠ .invalidInput) ∧
      ∀ (inter : ℚ → Bool) (tsOf : ℚ → ℤ) (t : ℚ) (rows : List (Option ℤ))
        (tr : List ℚ) (tf : ℚ) (e : SleepError),
        sleepUntilBatch inter tsOf t rows = (tr, tf, some e) → e ≠ .invalidInput := by
  constructor
  · intro inter t rows tr tf e h
    refine runRows_error_of_step (sleepForRow inter)
      (fun e1 => e1 ≠ .invalidInput) ?_ rows t tr tf e h
    intro t1 iv e1 hrow
    rw [sleepForRow] at hrow
    obtain ⟨tf1, rfl⟩ := performSleep_error_kind (by simp) hrow
    simp
  · intro inter tsOf t rows tr tf e h
    refine runRows_error_of_step (sleepUntilRow inter tsOf)
      (fun e1 => e1 ≠ .invalidInput) ?_ rows t tr tf e h
    intro t1 target e1 hrow
    unfold sleepUntilRow at hrow
    cases hss : sleepUntilSeconds (tsOf t1) target with
    | none =>
      rw [hss] at hrow
      exact absurd hrow (by simp)
    | some sv =>
      rw [hss] at hrow
      have hs : sv ≠ FloatVal.nan := by
        rw [sleepUntilSeconds] at hss
        by_cases h1 : target = INT64_MIN
        · rw [if_pos h1] at hss
          exact absurd hss (by simp)
        · rw [if_neg h1] at hss
          by_cases h2 : target = INT64_MAX
          · rw [if_pos h2] at hss
            simp only [Option.some.injEq] at hss
            rw [← hss]
            simp
          · rw [if_neg h2] at hss
            simp only [Option.some.injEq] at hss
            rw [← hss]
            simp
      obtain ⟨tf1, rfl⟩ := performSleep_error_kind hs hrow
      simp

theorem claim_C9_no_invalid_argument_witness :
    SleepError.interrupted 0 ≠ SleepError.invalidInput := by
  have hnorm : normalizeSleepSeconds (.finite (intervalToSeconds ⟨0, 0, 5000000⟩)) =
      .ok 5 := by
    norm_num [normalizeSleepSeconds, intervalToSeconds, FloatVal.isNaN,
      FloatVal.isInf, FloatVal.toRat, MAX_SLEEP_SECONDS]
  have hrow : sleepForRow (fun _ => true) 0 ⟨0, 0, 5000000⟩ =
      .error (.interrupted 0) := by
    rw [sleepForRow, performSleep, hnorm]
    exact sleepLoop_error_now rfl (by norm_num)
  exact claim_C9_no_invalid_argument.1 (fun _ => true) 0 [some ⟨0, 0, 5000000⟩] [] 0
    (.interrupted 0)
    (by rw [sleepForBatch]; exact runRows_cons_some_error [] hrow)

end SleepExt
